import Mathlib

/-!
Verification of the `ai_response_tools` parsing core
(`src/ai_response_tools/core.py`): the tolerant JSON extraction and
schema-matching routines `_iter_over_all_items`, `fuzzy_parse_json`,
`chatgpt_raw_response_parsing` and `response_parsing`, shallowly
embedded over an inductive tree of JSON-like nested values.
-/

set_option maxRecDepth 4000

namespace AiResponseTools

/-- A Python nested value: mapping keyed by string (insertion order kept,
as Python dicts keep it), ordered sequence, or scalar leaf.  Numbers are
modelled as integers (the only kind the claims exercise). -/
inductive JsonValue where
  | null : JsonValue
  | bool (b : Bool) : JsonValue
  | num (n : Int) : JsonValue
  | str (s : String) : JsonValue
  | arr (elems : List JsonValue) : JsonValue
  | obj (fields : List (String × JsonValue)) : JsonValue
deriving Repr

/-- `isinstance(d, (list, dict))` from `_iter_over_all_items`. -/
def isContainer : JsonValue → Bool
  | .arr _ => true
  | .obj _ => true
  | _ => false

mutual

/-- Embedding of `_iter_over_all_items` (core.py lines 177-191): yield the
node itself when it is a list or dict (otherwise return nothing), then
recurse into the children, list elements in order, dict values in
insertion order. -/
def iter_over_all_items : JsonValue → List JsonValue
  | .arr xs => .arr xs :: iterElems xs
  | .obj fs => .obj fs :: iterFieldValues fs
  | _ => []

/-- The `for item in d: yield from _iter_over_all_items(item)` loop. -/
def iterElems : List JsonValue → List JsonValue
  | [] => []
  | x :: xs => iter_over_all_items x ++ iterElems xs

/-- The `for value in d.values(): yield from _iter_over_all_items(value)` loop. -/
def iterFieldValues : List (String × JsonValue) → List JsonValue
  | [] => []
  | (_, v) :: fs => iter_over_all_items v ++ iterFieldValues fs

end

mutual

/-- The number of container (list or dict) nodes of a nested value. -/
def containerCount : JsonValue → Nat
  | .arr xs => 1 + containerCountElems xs
  | .obj fs => 1 + containerCountFields fs
  | _ => 0

def containerCountElems : List JsonValue → Nat
  | [] => 0
  | x :: xs => containerCount x + containerCountElems xs

def containerCountFields : List (String × JsonValue) → Nat
  | [] => 0
  | (_, v) :: fs => containerCount v + containerCountFields fs

end

mutual

/-- All subtrees of `v` (the node itself, then every descendant),
scalar leaves included. -/
def subtrees : JsonValue → List JsonValue
  | .arr xs => .arr xs :: subtreesElems xs
  | .obj fs => .obj fs :: subtreesFields fs
  | v => [v]

def subtreesElems : List JsonValue → List JsonValue
  | [] => []
  | x :: xs => subtrees x ++ subtreesElems xs

def subtreesFields : List (String × JsonValue) → List JsonValue
  | [] => []
  | (_, v) :: fs => subtrees v ++ subtreesFields fs

end

def isWsChar (c : Char) : Bool := c = ' ' || c = '\t' || c = '\n' || c = '\r'

def skipWs : List Char → List Char
  | [] => []
  | c :: cs => if isWsChar c then skipWs cs else c :: cs

/-- Body of a quoted string after the opening quote `q`, with the common
escape sequences; returns the decoded text and the rest after the closing
quote. -/
def stringBody (q : Char) : List Char → Option (String × List Char)
  | [] => none
  | c :: cs =>
    if c = q then some ("", cs)
    else if c = '\\' then
      match cs with
      | [] => none
      | e :: cs2 =>
        let d : Option Char :=
          if e = 'n' then some '\n' else if e = 't' then some '\t'
          else if e = 'r' then some '\r' else if e = '\\' then some '\\'
          else if e = '"' then some '"' else if e = '\'' then some '\''
          else if e = '/' then some '/' else none
        match d with
        | none => none
        | some d =>
          match stringBody q cs2 with
          | none => none
          | some (s, rest) => some (⟨d :: s.data⟩, rest)
    else
      match stringBody q cs with
      | none => none
      | some (s, rest) => some (⟨c :: s.data⟩, rest)

def takeDigits : List Char → List Char × List Char
  | [] => ([], [])
  | c :: cs =>
    if c.isDigit then
      let (ds, rest) := takeDigits cs
      (c :: ds, rest)
    else ([], c :: cs)

def digitsToNat (acc : Nat) : List Char → Nat
  | [] => acc
  | d :: ds => digitsToNat (acc * 10 + (d.toNat - '0'.toNat)) ds

/-- Integer literal: optional minus then digits, rejecting leading zeros
(as strict JSON does) and any fraction/exponent part (numbers are
modelled as integers only). -/
def parseIntLit (cs : List Char) : Option (JsonValue × List Char) :=
  let p : Bool × List Char :=
    match cs with
    | '-' :: rest => (true, rest)
    | _ => (false, cs)
  match takeDigits p.2 with
  | ([], _) => none
  | (d :: ds, rest) =>
    if d = '0' && !ds.isEmpty then none
    else if rest.head? = some '.' || rest.head? = some 'e' || rest.head? = some 'E' then none
    else
      let n : Int := Int.ofNat (digitsToNat 0 (d :: ds))
      some (.num (if p.1 then -n else n), rest)

def expectChars : List Char → List Char → Option (List Char)
  | [], cs => some cs
  | _ :: _, [] => none
  | e :: es, c :: cs => if c = e then expectChars es cs else none

def takeIdent : List Char → List Char × List Char
  | [] => ([], [])
  | c :: cs =>
    if c.isAlphanum || c = '_' || c = '$' then
      let (is, rest) := takeIdent cs
      (c :: is, rest)
    else ([], c :: cs)

/-- An object key: a double-quoted string, or with `tol` also a
single-quoted string or a bare identifier. -/
def parseKey (tol : Bool) (cs : List Char) : Option (String × List Char) :=
  match cs with
  | [] => none
  | c :: rest =>
    if c = '"' then stringBody '"' rest
    else if tol && c = '\'' then stringBody '\'' rest
    else if tol && (c.isAlpha || c = '_' || c = '$') then
      let p := takeIdent (c :: rest)
      some (⟨p.1⟩, p.2)
    else none

mutual

/-- Recursive-descent decoder for JSON-like values.  With `tol = false`
this is the strict JSON grammar (numbers restricted to integers); with
`tol = true` it also accepts single-quoted strings, bare identifier keys
and trailing commas, the relaxations of the lenient fallback. -/
def decodeValue (tol : Bool) : Nat → List Char → Option (JsonValue × List Char)
  | 0, _ => none
  | fuel + 1, cs0 =>
    match skipWs cs0 with
    | [] => none
    | c :: rest =>
      if c = '{' then
        match decodeMembers tol fuel rest [] false with
        | none => none
        | some (fs, rest2) => some (.obj fs, rest2)
      else if c = '[' then
        match decodeElems tol fuel rest [] false with
        | none => none
        | some (xs, rest2) => some (.arr xs, rest2)
      else if c = '"' then
        match stringBody '"' rest with
        | none => none
        | some (s, rest2) => some (.str s, rest2)
      else if tol && c = '\'' then
        match stringBody '\'' rest with
        | none => none
        | some (s, rest2) => some (.str s, rest2)
      else if c = 't' then (expectChars ['r', 'u', 'e'] rest).map (fun r => (.bool true, r))
      else if c = 'f' then (expectChars ['a', 'l', 's', 'e'] rest).map (fun r => (.bool false, r))
      else if c = 'n' then (expectChars ['u', 'l', 'l'] rest).map (fun r => (.null, r))
      else parseIntLit (c :: rest)

/-- Elements of an array after `[` or after a `,`. -/
def decodeElems (tol : Bool) : Nat → List Char → List JsonValue → Bool → Option (List JsonValue × List Char)
  | 0, _, _, _ => none
  | fuel + 1, cs, acc, afterComma =>
    match skipWs cs with
    | ']' :: rest => if afterComma && !tol then none else some (acc.reverse, rest)
    | cs1 =>
      match decodeValue tol fuel cs1 with
      | none => none
      | some (v, cs2) =>
        match skipWs cs2 with
        | ',' :: rest => decodeElems tol fuel rest (v :: acc) true
        | ']' :: rest => some ((v :: acc).reverse, rest)
        | _ => none

/-- Members of an object after `{` or after a `,`. -/
def decodeMembers (tol : Bool) : Nat → List Char → List (String × JsonValue) → Bool → Option (List (String × JsonValue) × List Char)
  | 0, _, _, _ => none
  | fuel + 1, cs, acc, afterComma =>
    match skipWs cs with
    | '}' :: rest => if afterComma && !tol then none else some (acc.reverse, rest)
    | cs1 =>
      match parseKey tol cs1 with
      | none => none
      | some (k, cs2) =>
        match skipWs cs2 with
        | ':' :: cs3 =>
          match decodeValue tol fuel cs3 with
          | none => none
          | some (v, cs4) =>
            match skipWs cs4 with
            | ',' :: rest => decodeMembers tol fuel rest ((k, v) :: acc) true
            | '}' :: rest => some (((k, v) :: acc).reverse, rest)
            | _ => none
        | _ => none

end

/-- Modelled from the spec: `json.loads`, the strict structured decoder
(the standard-library JSON module is outside this repository).  Decodes
the whole string as one strict JSON value, or fails. -/
def loads (s : String) : Option JsonValue :=
  match decodeValue false (2 * s.length + 4) s.data with
  | some (v, rest) => if skipWs rest = [] then some v else none
  | none => none

/-- A tolerant object/array literal starting exactly at the head of `cs`. -/
def literalAt (cs : List Char) : Option JsonValue :=
  match cs with
  | [] => none
  | c :: _ =>
    if c = '{' || c = '[' then
      match decodeValue true (2 * cs.length + 4) cs with
      | some (v, _) => some v
      | none => none
    else none

/-- Scan left to right for the first position at which a tolerant
object/array literal can be decoded, and return that literal's value. -/
def scanFirstLiteral : List Char → Option JsonValue
  | [] => none
  | c :: cs =>
    match literalAt (c :: cs) with
    | some v => some v
    | none => scanFirstLiteral cs

/-- The failure modes of the core, named by the spec's error taxonomy.
`irregularFinish` and `conflictingSchema` are both `ValueError` in the
code, `unsupportedType` is `NotImplementedError`, `unparsable` is the
fallback decoder's failure, and `indexError` is Python's `IndexError`
on an empty `choices` list. -/
inductive Err where
  | irregularFinish (reason : String) : Err
  | conflictingSchema : Err
  | unsupportedType : Err
  | unparsable : Err
  | indexError : Err
deriving Repr, DecidableEq

/-- Modelled from the spec: `chompjs.parse_js_object` (outside this
repository) scans the text for the first syntactically-plausible
object/array literal — tolerating unquoted keys, trailing commas and
single quotes — decodes just that literal, and fails when there is none. -/
def parse_js_object (s : String) : Except Err JsonValue :=
  match scanFirstLiteral s.data with
  | some v => .ok v
  | none => .error .unparsable

/-- `fuzzy_parse_json` with the fallback decoder as an explicit parameter:
the fallback is consulted only when strict decoding fails. -/
def fuzzy_parse_json_with (fallback : String → Except Err JsonValue) (s : String) :
    Except Err JsonValue :=
  match loads s with
  | some v => .ok v
  | none => fallback s

/-- Embedding of `fuzzy_parse_json` (core.py lines 194-200): strict decode,
falling back to the first-literal scanner on `JSONDecodeError`. -/
def fuzzy_parse_json (s : String) : Except Err JsonValue :=
  fuzzy_parse_json_with parse_js_object s

structure Message where
  content : Option String
deriving Repr

structure Choice where
  finish_reason : String
  message : Message
deriving Repr

/-- The structured chat-completion response: a list of choices, each with
a finish reason and a nested message content string (possibly absent). -/
structure ChatCompletion where
  choices : List Choice
deriving Repr

/-- The warning printed by the lenient branch of
`chatgpt_raw_response_parsing`. -/
def irregularWarning (reason : String) : String :=
  "Unexpected finish reason: " ++ reason ++ ". Returning `None`"

/-- Embedding of `chatgpt_raw_response_parsing` (core.py lines 142-174):
the returned value together with the list of warnings printed.  Accessing
`choices[0]` on an empty list is Python's `IndexError`. -/
def chatgpt_raw_response_parsing (response : ChatCompletion)
    (raise_exception_on_irregular_finish : Bool) :
    Except Err (Option String) × List String :=
  match response.choices.head? with
  | none => (.error .indexError, [])
  | some c =>
    if c.finish_reason ≠ "stop" then
      if raise_exception_on_irregular_finish then
        (.error (.irregularFinish c.finish_reason), [])
      else
        (.ok none, [irregularWarning c.finish_reason])
    else (.ok c.message.content, [])

/-- The `response` argument of `response_parsing`: a structured
chat-completion, a raw string, or anything else (unsupported). -/
inductive Response where
  | chat (c : ChatCompletion) : Response
  | str (s : String) : Response
  | other : Response

/-- The possible return values of `response_parsing`: a single nested
value, a list of nested values, or Python's `None`. -/
inductive PyResult where
  | value (v : JsonValue) : PyResult
  | list (vs : List JsonValue) : PyResult
  | none : PyResult
deriving Repr

/-- Embedding of `response_parsing` (core.py lines 203-278).  A schema is
modelled by its `Draft7Validator(schema).is_valid` test, a pluggable
`JsonValue → Bool` predicate.  Note the order of operations of the code:
normalization, then `fuzzy_parse_json`, then the conflicting-schema
check, then the schema dispatch. -/
def response_parsing (response : Response)
    (response_schema element_schema : Option (JsonValue → Bool))
    (raise_exception_on_irregular_finish : Bool) :
    Except Err PyResult :=
  let txtE : Except Err (Option String) :=
    match response with
    | .chat c => (chatgpt_raw_response_parsing c raise_exception_on_irregular_finish).1
    | .str s => .ok (some s)
    | .other => .error .unsupportedType
  match txtE with
  | .error e => .error e
  | .ok Option.none => .ok .none
  | .ok (some txt) =>
    match fuzzy_parse_json txt with
    | .error e => .error e
    | .ok fuzzy_parsed_object =>
      match response_schema, element_schema with
      | some _, some _ => .error .conflictingSchema
      | some sch, Option.none =>
        match (iter_over_all_items fuzzy_parsed_object).find? sch with
        | some ppjo => .ok (.value ppjo)
        | Option.none => .ok .none
      | Option.none, some sch =>
        .ok (.list ((iter_over_all_items fuzzy_parsed_object).filter sch))
      | Option.none, Option.none => .ok (.value fuzzy_parsed_object)

/-- Modelled from the spec: `jsonschema.Draft7Validator.is_valid` (the
jsonschema library is outside this repository) for the concrete schema
"requiring property b of type integer", i.e.
`{"type": "object", "required": ["b"], "properties": {"b": {"type": "integer"}}}`:
an object with a property `b` holding an integer is valid, everything
else is not. -/
def bIntSchema : JsonValue → Bool
  | .obj fs =>
    match fs.lookup "b" with
    | some (.num _) => true
    | _ => false
  | _ => false

/-- The spec's example value `{"a": {"b": 1}, "c": [{"b": 2}]}`. -/
def exampleValue : JsonValue :=
  .obj [("a", .obj [("b", .num 1)]), ("c", .arr [.obj [("b", .num 2)]])]

/-- The example value as a strict JSON text. -/
def exampleText : String := "\x7b\"a\": \x7b\"b\": 1\x7d, \"c\": [\x7b\"b\": 2\x7d]\x7d"

/-- A text that is not strict JSON and holds two plausible object
literals, the second larger and more complete than the first. -/
def twoLiteralText : String := "x \x7b\"a\": 1\x7d y \x7b\"a\": 1, \"b\": 2\x7d"

/-- A text whose value contains a matching node nested inside another
matching node. -/
def nestedText : String := "\x7b\"b\": 1, \"c\": \x7b\"b\": 2\x7d\x7d"

/-- The outer node of `nestedText`. -/
def nestedOuter : JsonValue := .obj [("b", .num 1), ("c", .obj [("b", .num 2)])]

/-- The inner node of `nestedText`, nested inside `nestedOuter`. -/
def nestedInner : JsonValue := .obj [("b", .num 2)]

/-! ### Helper lemmas about the traversal -/

theorem find?_first {α : Type} (p : α → Bool) (l : List α) (a : α)
    (h : l.find? p = some a) :
    ∃ i, l.get? i = some a ∧ p a = true ∧
      ∀ j, j < i → ∀ b, l.get? j = some b → p b = false := by
  induction l with
  | nil => simp [List.find?] at h
  | cons x xs ih =>
    by_cases hx : p x = true
    · rw [List.find?_cons_of_pos _ hx] at h
      obtain rfl : x = a := by injection h
      exact ⟨0, rfl, hx, fun j hj => absurd hj (Nat.not_lt_zero j)⟩
    · rw [List.find?_cons_of_neg _ hx] at h
      obtain ⟨i, h1, h2, h3⟩ := ih h
      refine ⟨i + 1, h1, h2, fun j hj b hb => ?_⟩
      cases j with
      | zero =>
        obtain rfl : x = b := by injection hb
        exact Bool.not_eq_true _ ▸ hx
      | succ k => exact h3 k (Nat.lt_of_succ_lt_succ hj) b hb

theorem iterElems_eq_join (xs : List JsonValue) :
    iterElems xs = (xs.map iter_over_all_items).flatten := by
  induction xs with
  | nil => rfl
  | cons x xs ih => simp [iterElems, ih]

theorem iterFieldValues_eq_join (fs : List (String × JsonValue)) :
    iterFieldValues fs = (fs.map (fun p => iter_over_all_items p.2)).flatten := by
  induction fs with
  | nil => rfl
  | cons p fs ih => cases p; simp [iterFieldValues, ih]

/-- A scalar leaf yields nothing at all. -/
theorem iter_scalar (v : JsonValue) (h : isContainer v = false) :
    iter_over_all_items v = [] := by
  cases v <;> simp_all [isContainer, iter_over_all_items]

/-- A container node is yielded first, before any of its children. -/
theorem iter_head (v : JsonValue) (h : isContainer v = true) :
    (iter_over_all_items v).head? = some v := by
  cases v <;> simp_all [isContainer, iter_over_all_items]

mutual

theorem iter_containers : ∀ (v : JsonValue), ∀ u ∈ iter_over_all_items v, isContainer u = true
  | .null => by simp [iter_over_all_items]
  | .bool _ => by simp [iter_over_all_items]
  | .num _ => by simp [iter_over_all_items]
  | .str _ => by simp [iter_over_all_items]
  | .arr xs => by
    intro u hu
    rcases List.mem_cons.mp hu with h | h
    · subst h; rfl
    · exact iterElems_containers xs u h
  | .obj fs => by
    intro u hu
    rcases List.mem_cons.mp hu with h | h
    · subst h; rfl
    · exact iterFieldValues_containers fs u h

theorem iterElems_containers : ∀ (xs : List JsonValue), ∀ u ∈ iterElems xs, isContainer u = true
  | [] => by simp [iterElems]
  | x :: xs => by
    intro u hu
    rcases List.mem_append.mp hu with h | h
    · exact iter_containers x u h
    · exact iterElems_containers xs u h

theorem iterFieldValues_containers :
    ∀ (fs : List (String × JsonValue)), ∀ u ∈ iterFieldValues fs, isContainer u = true
  | [] => by simp [iterFieldValues]
  | (_, v) :: fs => by
    intro u hu
    rcases List.mem_append.mp hu with h | h
    · exact iter_containers v u h
    · exact iterFieldValues_containers fs u h

end

mutual

theorem iter_length : ∀ (v : JsonValue), (iter_over_all_items v).length = containerCount v
  | .null => rfl
  | .bool _ => rfl
  | .num _ => rfl
  | .str _ => rfl
  | .arr xs => by
    simp [iter_over_all_items, containerCount, iterElems_length xs]
    omega
  | .obj fs => by
    simp [iter_over_all_items, containerCount, iterFieldValues_length fs]
    omega

theorem iterElems_length : ∀ (xs : List JsonValue), (iterElems xs).length = containerCountElems xs
  | [] => rfl
  | x :: xs => by
    simp [iterElems, containerCountElems, iter_length x, iterElems_length xs]

theorem iterFieldValues_length :
    ∀ (fs : List (String × JsonValue)), (iterFieldValues fs).length = containerCountFields fs
  | [] => rfl
  | (_, v) :: fs => by
    simp [iterFieldValues, containerCountFields, iter_length v, iterFieldValues_length fs]

end

mutual

theorem iter_subtrees : ∀ (v : JsonValue), ∀ u ∈ iter_over_all_items v, u ∈ subtrees v
  | .null => by simp [iter_over_all_items]
  | .bool _ => by simp [iter_over_all_items]
  | .num _ => by simp [iter_over_all_items]
  | .str _ => by simp [iter_over_all_items]
  | .arr xs => by
    intro u hu
    rcases List.mem_cons.mp hu with h | h
    · subst h; exact List.mem_cons_self _ _
    · exact List.mem_cons_of_mem _ (iterElems_subtrees xs u h)
  | .obj fs => by
    intro u hu
    rcases List.mem_cons.mp hu with h | h
    · subst h; exact List.mem_cons_self _ _
    · exact List.mem_cons_of_mem _ (iterFieldValues_subtrees fs u h)

theorem iterElems_subtrees : ∀ (xs : List JsonValue), ∀ u ∈ iterElems xs, u ∈ subtreesElems xs
  | [] => by simp [iterElems]
  | x :: xs => by
    intro u hu
    rcases List.mem_append.mp hu with h | h
    · exact List.mem_append_left _ (iter_subtrees x u h)
    · exact List.mem_append_right _ (iterElems_subtrees xs u h)

theorem iterFieldValues_subtrees :
    ∀ (fs : List (String × JsonValue)), ∀ u ∈ iterFieldValues fs, u ∈ subtreesFields fs
  | [] => by simp [iterFieldValues]
  | (_, v) :: fs => by
    intro u hu
    rcases List.mem_append.mp hu with h | h
    · exact List.mem_append_left _ (iter_subtrees v u h)
    · exact List.mem_append_right _ (iterFieldValues_subtrees fs u h)

end

mutual

/-- The traversal of any visited node is contained in the full traversal:
descendants of a visited node are themselves visited. -/
theorem iter_mono : ∀ (v : JsonValue), ∀ u ∈ iter_over_all_items v,
    ∀ w ∈ iter_over_all_items u, w ∈ iter_over_all_items v
  | .null => by simp [iter_over_all_items]
  | .bool _ => by simp [iter_over_all_items]
  | .num _ => by simp [iter_over_all_items]
  | .str _ => by simp [iter_over_all_items]
  | .arr xs => by
    intro u hu w hw
    rcases List.mem_cons.mp hu with h | h
    · subst h; exact hw
    · exact List.mem_cons_of_mem _ (iterElems_mono xs u h w hw)
  | .obj fs => by
    intro u hu w hw
    rcases List.mem_cons.mp hu with h | h
    · subst h; exact hw
    · exact List.mem_cons_of_mem _ (iterFieldValues_mono fs u h w hw)

theorem iterElems_mono : ∀ (xs : List JsonValue), ∀ u ∈ iterElems xs,
    ∀ w ∈ iter_over_all_items u, w ∈ iterElems xs
  | [] => by simp [iterElems]
  | x :: xs => by
    intro u hu w hw
    rcases List.mem_append.mp hu with h | h
    · exact List.mem_append_left _ (iter_mono x u h w hw)
    · exact List.mem_append_right _ (iterElems_mono xs u h w hw)

theorem iterFieldValues_mono : ∀ (fs : List (String × JsonValue)), ∀ u ∈ iterFieldValues fs,
    ∀ w ∈ iter_over_all_items u, w ∈ iterFieldValues fs
  | [] => by simp [iterFieldValues]
  | (_, v) :: fs => by
    intro u hu w hw
    rcases List.mem_append.mp hu with h | h
    · exact List.mem_append_left _ (iter_mono v u h w hw)
    · exact List.mem_append_right _ (iterFieldValues_mono fs u h w hw)

end

/-! ### Claim theorems -/

/-- C1: for every parsed value, first-match mode returns the first
container node in pre-order traversal order that the validator accepts,
and `None` when no visited node matches; all-matches mode returns the
list of every visited container node the validator accepts, in traversal
order.  In particular, for `{"a": {"b": 1}, "c": [{"b": 2}]}` and a
schema requiring property `b` of type integer, first-match mode returns
`{"b": 1}` and all-matches mode returns `[{"b": 1}, {"b": 2}]`. -/
theorem c1_match_modes (s : String) (v : JsonValue) (sch : JsonValue → Bool)
    (hp : fuzzy_parse_json s = .ok v) :
    (∀ m, response_parsing (.str s) (some sch) none false = .ok (.value m) →
      ∃ i, (iter_over_all_items v).get? i = some m ∧ sch m = true ∧
        ∀ j, j < i → ∀ b, (iter_over_all_items v).get? j = some b → sch b = false) ∧
    (response_parsing (.str s) (some sch) none false = .ok .none ↔
      ∀ u ∈ iter_over_all_items v, sch u = false) ∧
    (response_parsing (.str s) none (some sch) false =
      .ok (.list ((iter_over_all_items v).filter sch))) ∧
    (response_parsing (.str exampleText) (some bIntSchema) none false =
      .ok (.value (.obj [("b", .num 1)]))) ∧
    (response_parsing (.str exampleText) none (some bIntSchema) false =
      .ok (.list [.obj [("b", .num 1)], .obj [("b", .num 2)]])) := by
  refine ⟨?_, ?_, ?_, rfl, rfl⟩
  · intro m hm
    cases hfind : (iter_over_all_items v).find? sch with
    | none => simp [response_parsing, hp, hfind] at hm
    | some m' =>
      simp [response_parsing, hp, hfind] at hm
      subst hm
      exact find?_first sch _ m' hfind
  · cases hfind : (iter_over_all_items v).find? sch with
    | none =>
      simp [response_parsing, hp, hfind]
      intro u hu
      have := List.find?_eq_none.mp hfind u hu
      simpa using this
    | some m' =>
      simp [response_parsing, hp, hfind]
      exact ⟨m', List.mem_of_find?_eq_some hfind, List.find?_some hfind⟩
  · simp [response_parsing, hp]

/-- C1 witness: the theorem applied to the spec's concrete example. -/
theorem c1_witness :
    (response_parsing (.str exampleText) (some bIntSchema) none false =
      .ok (.value (.obj [("b", .num 1)]))) ∧
    (response_parsing (.str exampleText) none (some bIntSchema) false =
      .ok (.list [.obj [("b", .num 1)], .obj [("b", .num 2)]])) :=
  ⟨(c1_match_modes exampleText exampleValue bIntSchema rfl).2.2.2.1,
   (c1_match_modes exampleText exampleValue bIntSchema rfl).2.2.2.2⟩

/-- C2: the traversal `_iter_over_all_items` is a pre-order depth-first
walk that yields exactly the mapping and sequence nodes of the tree,
never a scalar leaf; each node is yielded before its children, exactly
once (the yield count equals the container count), sequence elements are
visited in order and mapping values in insertion order, and no container
node is skipped. -/
theorem c2_preorder_traversal (v : JsonValue) :
    (∀ u ∈ iter_over_all_items v, isContainer u = true) ∧
    (iter_over_all_items v).length = containerCount v ∧
    (isContainer v = true → (iter_over_all_items v).head? = some v) ∧
    (isContainer v = false → iter_over_all_items v = []) ∧
    (∀ xs, iter_over_all_items (.arr xs) =
      .arr xs :: (xs.map iter_over_all_items).flatten) ∧
    (∀ fs, iter_over_all_items (.obj fs) =
      .obj fs :: (fs.map (fun p => iter_over_all_items p.2)).flatten) := by
  refine ⟨iter_containers v, iter_length v, iter_head v, iter_scalar v, ?_, ?_⟩
  · intro xs; simp [iter_over_all_items, iterElems_eq_join]
  · intro fs; simp [iter_over_all_items, iterFieldValues_eq_join]

/-- C2 witness: the traversal facts evaluated on the example value. -/
theorem c2_witness :
    (∀ u ∈ iter_over_all_items exampleValue, isContainer u = true) ∧
    (iter_over_all_items exampleValue).length = containerCount exampleValue ∧
    (iter_over_all_items exampleValue).head? = some exampleValue :=
  ⟨(c2_preorder_traversal exampleValue).1, (c2_preorder_traversal exampleValue).2.1,
   (c2_preorder_traversal exampleValue).2.2.1 rfl⟩

/-- C4: for every string that strict decoding accepts, `fuzzy_parse_json`
returns exactly the strict decode, and the result does not depend on the
tolerant fallback decoder at all (it is the same for every fallback, so
the fallback is never invoked). -/
theorem c4_strict_path (s : String) (v : JsonValue) (h : loads s = some v) :
    fuzzy_parse_json s = .ok v ∧
    ∀ fallback : String → Except Err JsonValue, fuzzy_parse_json_with fallback s = .ok v := by
  refine ⟨?_, fun fallback => ?_⟩
  · simp [fuzzy_parse_json, fuzzy_parse_json_with, h]
  · simp [fuzzy_parse_json_with, h]

/-- C4 witness: the strict path on the example text. -/
theorem c4_witness :
    loads exampleText = some exampleValue ∧
    fuzzy_parse_json exampleText = .ok exampleValue :=
  ⟨rfl, (c4_strict_path exampleText exampleValue rfl).1⟩

/-- C6: a structured response whose finish indicator is not `"stop"`
raises the irregular-finish `ValueError` when the raise flag is set, and
returns `None` with a printed warning (and no exception) when the flag is
unset; with a normal finish indicator the message content is returned. -/
theorem c6_finish_handling (c : Choice) (rest : List Choice) :
    (c.finish_reason ≠ "stop" →
      chatgpt_raw_response_parsing ⟨c :: rest⟩ true =
        (.error (.irregularFinish c.finish_reason), []) ∧
      chatgpt_raw_response_parsing ⟨c :: rest⟩ false =
        (.ok none, [irregularWarning c.finish_reason])) ∧
    (c.finish_reason = "stop" → ∀ flag,
      chatgpt_raw_response_parsing ⟨c :: rest⟩ flag = (.ok c.message.content, [])) := by
  constructor
  · intro h
    constructor <;> simp [chatgpt_raw_response_parsing, h]
  · intro h flag
    simp [chatgpt_raw_response_parsing, h]

/-- C6 witness: both finish-reason behaviors at concrete responses. -/
theorem c6_witness :
    chatgpt_raw_response_parsing ⟨[⟨"length", ⟨some "hi"⟩⟩]⟩ true =
      (.error (.irregularFinish "length"), []) ∧
    chatgpt_raw_response_parsing ⟨[⟨"length", ⟨some "hi"⟩⟩]⟩ false =
      (.ok none, [irregularWarning "length"]) ∧
    chatgpt_raw_response_parsing ⟨[⟨"stop", ⟨some "hi"⟩⟩]⟩ false = (.ok (some "hi"), []) := by
  have h1 := (c6_finish_handling ⟨"length", ⟨some "hi"⟩⟩ []).1 (by decide)
  have h2 := (c6_finish_handling ⟨"stop", ⟨some "hi"⟩⟩ []).2 rfl false
  exact ⟨h1.1, h1.2, h2⟩

/-- C7: with neither schema supplied, `response_parsing` returns the
whole parsed value unchanged, whatever its shape. -/
theorem c7_no_schema_identity (s : String) (v : JsonValue) (flag : Bool)
    (hp : fuzzy_parse_json s = .ok v) :
    response_parsing (.str s) none none flag = .ok (.value v) := by
  simp [response_parsing, hp]

/-- C7 witness: the identity behavior on a mapping and on a scalar. -/
theorem c7_witness :
    response_parsing (.str exampleText) none none false = .ok (.value exampleValue) ∧
    response_parsing (.str "5") none none false = .ok (.value (.num 5)) :=
  ⟨c7_no_schema_identity exampleText exampleValue false rfl,
   c7_no_schema_identity "5" (.num 5) false rfl⟩

/-- C3 counterexample: with both schemas supplied, a structured response
with an irregular finish reason and the raise flag unset returns `None`
and does not raise the conflicting-schema error, refuting the claim's
"for every input". -/
theorem c3_counterexample :
    response_parsing (.chat ⟨[⟨"length", ⟨some "{}"⟩⟩]⟩)
      (some (fun _ => true)) (some (fun _ => true)) false = .ok .none ∧
    response_parsing (.chat ⟨[⟨"length", ⟨some "{}"⟩⟩]⟩)
      (some (fun _ => true)) (some (fun _ => true)) false ≠
      .error .conflictingSchema := by
  refine ⟨rfl, fun h => ?_⟩
  rw [show response_parsing (.chat ⟨[⟨"length", ⟨some "{}"⟩⟩]⟩)
      (some (fun _ => true)) (some (fun _ => true)) false = .ok .none from rfl] at h
  exact Except.noConfusion h

/-- C3 amended: whenever both schemas are supplied and the call reaches
the schema dispatch (the normalization yields a text whose parse
succeeds), `response_parsing` raises the conflicting-schema `ValueError`;
the result is the same for every pair of schema predicates, so no
validator is invoked and no traversal is performed. -/
theorem c3_conflict_after_parse (s : String) (v : JsonValue)
    (sch1 sch2 : JsonValue → Bool) (flag : Bool)
    (hp : fuzzy_parse_json s = .ok v) :
    response_parsing (.str s) (some sch1) (some sch2) flag = .error .conflictingSchema ∧
    (∀ c : Choice, c.finish_reason = "stop" → c.message.content = some s →
      ∀ rest, response_parsing (.chat ⟨c :: rest⟩) (some sch1) (some sch2) flag =
        .error .conflictingSchema) := by
  constructor
  · simp [response_parsing, hp]
  · intro c hstop hcontent rest
    simp [response_parsing, chatgpt_raw_response_parsing, hstop, hcontent, hp]

/-- C3 witness: the amended conflict behavior on a concrete call. -/
theorem c3_witness :
    response_parsing (.str "{}") (some bIntSchema) (some bIntSchema) false =
      .error .conflictingSchema :=
  (c3_conflict_after_parse "{}" (.obj []) bIntSchema bIntSchema false rfl).1

/-- The scanner's result is the literal decoded at the earliest decodable
position. -/
theorem scanFirstLiteral_earliest (cs : List Char) (v : JsonValue)
    (h : scanFirstLiteral cs = some v) :
    ∃ i, literalAt (cs.drop i) = some v ∧ ∀ j, j < i → literalAt (cs.drop j) = none := by
  induction cs with
  | nil => simp [scanFirstLiteral] at h
  | cons c cs ih =>
    cases hl : literalAt (c :: cs) with
    | some w =>
      simp only [scanFirstLiteral, hl] at h
      obtain rfl : w = v := by injection h
      exact ⟨0, hl, fun j hj => absurd hj (Nat.not_lt_zero j)⟩
    | none =>
      simp only [scanFirstLiteral, hl] at h
      obtain ⟨i, h1, h2⟩ := ih h
      refine ⟨i + 1, by simpa using h1, fun j hj => ?_⟩
      cases j with
      | zero => simpa using hl
      | succ k => simpa using h2 k (Nat.lt_of_succ_lt_succ hj)

/-- C5: when strict decoding fails, `fuzzy_parse_json` returns the
literal decoded at the earliest position of the text at which a plausible
object/array literal starts, never a later one; on the concrete text with
two literals it returns the first one, not the larger second one. -/
theorem c5_first_literal (s : String) (v : JsonValue)
    (hs : loads s = none) (h : fuzzy_parse_json s = .ok v) :
    (∃ i, literalAt (s.data.drop i) = some v ∧
      ∀ j, j < i → literalAt (s.data.drop j) = none) ∧
    fuzzy_parse_json twoLiteralText = .ok (.obj [("a", .num 1)]) ∧
    fuzzy_parse_json twoLiteralText ≠ .ok (.obj [("a", .num 1), ("b", .num 2)]) := by
  refine ⟨?_, rfl, ?_⟩
  · have hscan : scanFirstLiteral s.data = some v := by
      simp only [fuzzy_parse_json, fuzzy_parse_json_with, hs, parse_js_object] at h
      cases hsc : scanFirstLiteral s.data with
      | none => simp [hsc] at h
      | some w => simpa [hsc] using h
    exact scanFirstLiteral_earliest s.data v hscan
  · intro hbad
    rw [show fuzzy_parse_json twoLiteralText = .ok (.obj [("a", .num 1)]) from rfl] at hbad
    injection hbad with hbad
    simp at hbad

/-- C5 witness: the two-literal text, on which strict decoding fails and
the first literal is returned. -/
theorem c5_witness :
    loads twoLiteralText = none ∧
    fuzzy_parse_json twoLiteralText = .ok (.obj [("a", .num 1)]) ∧
    fuzzy_parse_json twoLiteralText ≠ .ok (.obj [("a", .num 1), ("b", .num 2)]) :=
  ⟨rfl, (c5_first_literal twoLiteralText (.obj [("a", .num 1)]) rfl rfl).2.1,
   (c5_first_literal twoLiteralText (.obj [("a", .num 1)]) rfl rfl).2.2⟩

/-- C8: matching is a pure function of the parsed value (nothing is
mutated), and every node of a match result — the traversal's yields, the
first-match result and every member of the all-matches result — is a
subtree of the original parsed value, not an independently built one. -/
theorem c8_results_are_subtrees (s : String) (v : JsonValue)
    (sch : JsonValue → Bool) (flag : Bool)
    (hp : fuzzy_parse_json s = .ok v) :
    (∀ u ∈ iter_over_all_items v, u ∈ subtrees v) ∧
    (∀ m, response_parsing (.str s) (some sch) none flag = .ok (.value m) →
      m ∈ subtrees v) ∧
    (∀ ms, response_parsing (.str s) none (some sch) flag = .ok (.list ms) →
      ∀ m ∈ ms, m ∈ subtrees v) := by
  refine ⟨iter_subtrees v, ?_, ?_⟩
  · intro m hm
    cases hfind : (iter_over_all_items v).find? sch with
    | none => simp [response_parsing, hp, hfind] at hm
    | some m' =>
      simp [response_parsing, hp, hfind] at hm
      subst hm
      exact iter_subtrees v m' (List.mem_of_find?_eq_some hfind)
  · intro ms hms m hm
    have hmseq : ms = (iter_over_all_items v).filter sch := by
      simp [response_parsing, hp] at hms
      exact hms.symm
    subst hmseq
    exact iter_subtrees v m (List.mem_of_mem_filter hm)

/-- C8 witness: the first-match result on the example is a subtree of the
example value. -/
theorem c8_witness :
    JsonValue.obj [("b", .num 1)] ∈ subtrees exampleValue :=
  (c8_results_are_subtrees exampleText exampleValue bIntSchema false rfl).2.1
    (.obj [("b", .num 1)]) rfl

/-- C9: when the parsed value is a scalar leaf, the traversal is empty,
so for every schema first-match mode returns `None` and all-matches mode
returns the empty list — uniformly in the schema predicate, which is
therefore never invoked. -/
theorem c9_scalar_no_match (s : String) (v : JsonValue) (flag : Bool)
    (hp : fuzzy_parse_json s = .ok v) (hv : isContainer v = false) :
    ∀ sch : JsonValue → Bool,
      response_parsing (.str s) (some sch) none flag = .ok .none ∧
      response_parsing (.str s) none (some sch) flag = .ok (.list []) := by
  intro sch
  constructor <;> simp [response_parsing, hp, iter_scalar v hv]

/-- C9 witness: the scalar `5`. -/
theorem c9_witness :
    response_parsing (.str "5") (some bIntSchema) none false = .ok .none ∧
    response_parsing (.str "5") none (some bIntSchema) false = .ok (.list []) :=
  c9_scalar_no_match "5" (.num 5) false rfl rfl bIntSchema

/-- C10: in all-matches mode the traversal does not stop at a matching
container: every visited node the validator accepts is in the result,
including the visited descendants of nodes already in the result; on the
concrete nested text the result holds an outer node and, after it, a node
nested inside it. -/
theorem c10_all_matches_descend (s : String) (v : JsonValue)
    (sch : JsonValue → Bool) (flag : Bool)
    (hp : fuzzy_parse_json s = .ok v) :
    (∀ ms, response_parsing (.str s) none (some sch) flag = .ok (.list ms) →
      (∀ w ∈ iter_over_all_items v, sch w = true → w ∈ ms) ∧
      (∀ u ∈ ms, ∀ w ∈ iter_over_all_items u, sch w = true → w ∈ ms)) ∧
    response_parsing (.str nestedText) none (some bIntSchema) false =
      .ok (.list [nestedOuter, nestedInner]) ∧
    nestedInner ∈ subtrees nestedOuter ∧ nestedOuter ≠ nestedInner := by
  refine ⟨?_, rfl, ?_, ?_⟩
  · intro ms hms
    have hmseq : ms = (iter_over_all_items v).filter sch := by
      simp [response_parsing, hp] at hms
      exact hms.symm
    subst hmseq
    refine ⟨fun w hw hsch => List.mem_filter.mpr ⟨hw, hsch⟩, ?_⟩
    intro u hu w hw hsch
    exact List.mem_filter.mpr ⟨iter_mono v u (List.mem_filter.mp hu).1 w hw, hsch⟩
  · rw [show subtrees nestedOuter = [nestedOuter, .num 1, nestedInner, .num 2] from rfl]
    exact List.mem_cons_of_mem _ (List.mem_cons_of_mem _ (List.mem_cons_self _ _))
  · intro h
    simp [nestedOuter, nestedInner] at h

/-- C10 witness: the nested text's all-matches result and the nesting of
its second element inside its first. -/
theorem c10_witness :
    response_parsing (.str nestedText) none (some bIntSchema) false =
      .ok (.list [nestedOuter, nestedInner]) ∧
    nestedInner ∈ subtrees nestedOuter :=
  ⟨(c10_all_matches_descend nestedText nestedOuter bIntSchema false rfl).2.1,
   (c10_all_matches_descend nestedText nestedOuter bIntSchema false rfl).2.2.1⟩

end AiResponseTools
